import Mathlib

/-!
A shallow embedding of the API-key service and the item service of the
python-project-template-api repository.

The embedding follows `src/app/auth/service.py`, `src/app/auth/models.py`,
`src/app/auth/dependencies.py`, `src/app/items/service.py` and
`src/app/db/base.py`.  The database session is modelled as an explicit list
of rows passed in and out of every operation; SQLAlchemy's
`scalar_one_or_none` is modelled as a fallible selection that fails with
`multipleResultsFound` when the query matched more than one row, exactly as
the library raises `MultipleResultsFound`.  Timestamps (`datetime` values)
are modelled as naturals with the same ordering; clock reads
(`datetime.now(UTC)`) become explicit `now` parameters.  The random inputs
of key creation (`uuid4`, `secrets.token_urlsafe`, the bcrypt salt) are
explicit parameters as well.
-/

deriving instance DecidableEq for Except

namespace ApiKeyApp

/-- Timestamps: `datetime` values, modelled as naturals ordered as the code
orders datetimes. -/
abbrev Time := Nat

/-- A bcrypt hash value, `bcrypt.hashpw(key, gensalt(rounds))`.  A salted
bcrypt hash is determined by the salt and the hashed plaintext, and
`bcrypt.checkpw(k, h)` succeeds exactly when `k` is the plaintext that
produced `h`; the embedding records the two determining components. -/
structure BcryptHash where
  salt : Nat
  hashedPlaintext : String
deriving DecidableEq

/-- `APIKeyService.hash_key` (src/app/auth/service.py): bcrypt-hash a
plaintext key with a fresh salt.  The salt drawn by `bcrypt.gensalt` is an
explicit parameter. -/
def APIKeyService.hash_key (salt : Nat) (key : String) : BcryptHash :=
  { salt := salt, hashedPlaintext := key }

/-- `APIKeyService.verify_key` (src/app/auth/service.py):
`bcrypt.checkpw(key, key_hash)`, true exactly when `key` is the plaintext
the hash was computed from. -/
def APIKeyService.verify_key (key : String) (key_hash : BcryptHash) : Bool :=
  key == key_hash.hashedPlaintext

/-- The `api_keys` row (class `APIKey`, src/app/auth/models.py). -/
structure APIKey where
  id : String
  name : String
  client_id : String
  key_hash : BcryptHash
  key_prefix : String
  is_active : Bool
  expires_at : Option Time
  created_at : Time
  last_used_at : Option Time
  revoked_at : Option Time
deriving DecidableEq

/-- `APIKey.is_expired` (src/app/auth/models.py): false when `expires_at`
is NULL, otherwise `datetime.now(UTC) > expires_at`.  The clock read is the
explicit `now` parameter. -/
def APIKey.is_expired (k : APIKey) (now : Time) : Bool :=
  match k.expires_at with
  | none => false
  | some t => decide (t < now)

/-- `APIKeyService.KEY_PREFIX` (src/app/auth/service.py). -/
def APIKeyService.KEY_PREFIX : String := "sk_"

/-- `APIKeyService.generate_key` (src/app/auth/service.py): the random part
drawn by `secrets.token_urlsafe` is an explicit parameter. -/
def APIKeyService.generate_key (randomPart : String) : String :=
  APIKeyService.KEY_PREFIX ++ randomPart

/-- `APIKeyService.get_key_prefix` (src/app/auth/service.py): `key[:12]`,
the first 12 characters of the key (the whole key when it is shorter). -/
def APIKeyService.get_key_prefix (key : String) : String :=
  String.mk (key.data.take 12)

/-- The api_keys table, as the list of its rows. -/
abbrev Store := List APIKey

/-- The error SQLAlchemy's `scalar_one_or_none` raises when the query
matched several rows. -/
inductive DBError where
  | multipleResultsFound
deriving DecidableEq

/-- SQLAlchemy `Result.scalar_one_or_none`: `none` on no row, the row when
it is unique, and the `MultipleResultsFound` error on two rows or more. -/
def scalar_one_or_none {α : Type} (rows : List α) : Except DBError (Option α) :=
  match rows with
  | [] => .ok none
  | [r] => .ok (some r)
  | _ :: _ :: _ => .error .multipleResultsFound

/-- The rows matched by validate_key's SELECT
(`APIKey.is_active == True, APIKey.key_prefix == prefix`). -/
def APIKeyService.activeWithPrefix (store : Store) (p : String) : List APIKey :=
  store.filter (fun r => r.is_active && r.key_prefix == p)

/-- `APIKeyService.validate_key` (src/app/auth/service.py): locked lookup of
the unique active row by key prefix, hash verification, expiry check, then
the `last_used_at` touch flushed to the store.  Every failure returns `none`
and leaves the store unchanged. -/
def APIKeyService.validate_key (store : Store) (key : String) (now : Time) :
    Except DBError (Option APIKey × Store) :=
  match scalar_one_or_none
      (APIKeyService.activeWithPrefix store (APIKeyService.get_key_prefix key)) with
  | .error e => .error e
  | .ok none => .ok (none, store)
  | .ok (some api_key) =>
    if APIKeyService.verify_key key api_key.key_hash = false then
      .ok (none, store)
    else if api_key.is_expired now = true then
      .ok (none, store)
    else
      .ok (some { api_key with last_used_at := some now },
        store.map (fun r =>
          if r.id == api_key.id then { r with last_used_at := some now } else r))

/-- `APIKeyService.MIN_PREFIX_LENGTH` (src/app/auth/service.py). -/
def APIKeyService.MIN_PREFIX_LENGTH : Nat := 4

/-- SQL `LIKE` matching as PostgreSQL evaluates it: the whole string must
match the pattern, `%` matches any (possibly empty) character sequence,
`_` matches exactly one character, and a backslash escapes the following
pattern character so it matches literally. -/
def sqlLike : List Char → List Char → Bool
  | [], s => s.isEmpty
  | '\\' :: _ :: _, [] => false
  | '\\' :: c :: ps, c2 :: s2 => c == c2 && sqlLike ps s2
  | '%' :: ps, s => s.tails.any (fun t => sqlLike ps t)
  | '_' :: _, [] => false
  | '_' :: ps, _ :: s2 => sqlLike ps s2
  | _ :: _, [] => false
  | c :: ps, c2 :: s2 => c == c2 && sqlLike ps s2

/-- SQLAlchemy's `column.startswith(p)`: rendered as `column LIKE p || '%'`
with no escaping of `p` (autoescape defaults to false), so `%` and `_`
inside the supplied string act as SQL wildcards. -/
def likeStartswith (p s : String) : Bool :=
  sqlLike (p.data ++ ['%']) s.data

/-- `APIKeyService.get_key_by_prefix` (src/app/auth/service.py): `none` for
a prefix shorter than `MIN_PREFIX_LENGTH`, otherwise `scalar_one_or_none`
over the rows matched by `APIKey.key_prefix.startswith(prefix)`, that is
by the unescaped SQL pattern `prefix || '%'`. -/
def APIKeyService.get_key_by_prefix (store : Store) (p : String) :
    Except DBError (Option APIKey) :=
  if p.length < APIKeyService.MIN_PREFIX_LENGTH then
    .ok none
  else
    scalar_one_or_none (store.filter (fun r => likeStartswith p r.key_prefix))

/-- `APIKeyService.revoke_key` (src/app/auth/service.py): one UPDATE setting
`is_active = False` and `revoked_at = now` on every row whose id matches,
returning whether the rowcount was positive, paired with the updated
store. -/
def APIKeyService.revoke_key (store : Store) (key_id : String) (now : Time) :
    Bool × Store :=
  (decide (0 < (store.filter (fun r => r.id == key_id)).length),
    store.map (fun r =>
      if r.id == key_id then
        { r with is_active := false, revoked_at := some now }
      else r))

/-- `APIKeyCreate` (src/app/auth/schemas.py): the issuance request. -/
structure APIKeyCreate where
  name : String
  client_id : String
  expires_at : Option Time
deriving DecidableEq

/-- `APIKeyCreated` (src/app/auth/schemas.py): the issuance response,
carrying the raw key exactly once. -/
structure APIKeyCreated where
  id : String
  name : String
  client_id : String
  key_prefix : String
  key : String
  expires_at : Option Time
  created_at : Time
deriving DecidableEq

/-- The store-level integrity error raised when an INSERT violates one of
the unique constraints of the api_keys table (id primary key, key_hash,
key_prefix, and the (client_id, name) pair; src/app/auth/models.py and
alembic/versions/001_initial_schema.py). -/
inductive IntegrityError where
  | uniqueViolation
deriving DecidableEq

/-- The row `create_key` inserts (src/app/auth/service.py, the `APIKey(...)`
constructor call): freshly hashed key, first-12-characters prefix, active,
no usage and no revocation timestamp yet. -/
def newKeyRow (data : APIKeyCreate) (genId randomPart : String) (salt : Nat)
    (now : Time) : APIKey :=
  { id := genId, name := data.name, client_id := data.client_id,
    key_hash := APIKeyService.hash_key salt (APIKeyService.generate_key randomPart),
    key_prefix := APIKeyService.get_key_prefix (APIKeyService.generate_key randomPart),
    is_active := true, expires_at := data.expires_at, created_at := now,
    last_used_at := none, revoked_at := none }

/-- `APIKeyService.create_key` (src/app/auth/service.py): generate a key,
hash it, take its prefix, insert the row with `is_active = True`, and
return the metadata together with the raw key.  The generated id, random
part and salt are explicit parameters; `created_at` is set by the store at
insert time (`server_default func.now()`).  The insert fails when it would
violate one of the table's unique constraints (id primary key, key_hash,
key_prefix, and the (client_id, name) pair). -/
def APIKeyService.create_key (store : Store) (data : APIKeyCreate)
    (genId : String) (randomPart : String) (salt : Nat) (now : Time) :
    Except IntegrityError (APIKeyCreated × Store) :=
  if ∃ r ∈ store, r.id = genId ∨
      r.key_hash = APIKeyService.hash_key salt (APIKeyService.generate_key randomPart) ∨
      r.key_prefix = APIKeyService.get_key_prefix (APIKeyService.generate_key randomPart) ∨
      (r.client_id = data.client_id ∧ r.name = data.name) then
    .error .uniqueViolation
  else
    .ok ({ id := genId, name := data.name, client_id := data.client_id,
           key_prefix := APIKeyService.get_key_prefix (APIKeyService.generate_key randomPart),
           key := APIKeyService.generate_key randomPart,
           expires_at := data.expires_at, created_at := now },
      store ++ [newKeyRow data genId randomPart salt now])

/-- The HTTP 401 error carried by `HTTPException` in
src/app/auth/dependencies.py. -/
structure HTTPError where
  status_code : Nat
  detail : String
  www_authenticate : String
deriving DecidableEq

/-- `_INVALID_API_KEY_MESSAGE` (src/app/auth/dependencies.py). -/
def INVALID_API_KEY_MESSAGE : String := "Invalid API key"

/-- The one HTTPException every auth failure raises
(src/app/auth/dependencies.py): status 401, the unified detail message and
the WWW-Authenticate header. -/
def invalidAPIKeyError : HTTPError :=
  { status_code := 401, detail := INVALID_API_KEY_MESSAGE,
    www_authenticate := "ApiKey" }

/-- What `get_api_key` gives back to its caller: the validated record, a
raised HTTPException, or a store-layer error propagating out of the
session. -/
inductive AuthOutcome where
  | ok (record : APIKey)
  | httpError (e : HTTPError)
  | dbError (e : DBError)
deriving DecidableEq

/-- Whether an outcome of `get_api_key` is a failure (anything but a
validated record). -/
def AuthOutcome.isRejection : AuthOutcome → Bool
  | .ok _ => false
  | .httpError _ => true
  | .dbError _ => true

/-- `get_api_key` (src/app/auth/dependencies.py): reject a missing or empty
header value (`if not api_key`), reject a value shorter than
`settings.api_key_min_length`, then delegate to
`APIKeyService.validate_key`; every rejection raises the same
`invalidAPIKeyError`. -/
def get_api_key (api_key : Option String) (api_key_min_length : Nat)
    (store : Store) (now : Time) : AuthOutcome :=
  match api_key with
  | none => .httpError invalidAPIKeyError
  | some k =>
    if k = "" then .httpError invalidAPIKeyError
    else if k.length < api_key_min_length then .httpError invalidAPIKeyError
    else
      match APIKeyService.validate_key store k now with
      | .error e => .dbError e
      | .ok (none, _) => .httpError invalidAPIKeyError
      | .ok (some record, _) => .ok record

/-- A core operation on the api_keys store, with every random or clock
input made explicit. -/
inductive Op where
  | create (data : APIKeyCreate) (genId : String) (randomPart : String)
      (salt : Nat) (now : Time)
  | validate (key : String) (now : Time)
  | revoke (key_id : String) (now : Time)

/-- The store after one operation (a failed create or validate rolls back,
leaving the store unchanged). -/
def applyOp (store : Store) (op : Op) : Store :=
  match op with
  | .create data genId randomPart salt now =>
    match APIKeyService.create_key store data genId randomPart salt now with
    | .error _ => store
    | .ok (_, store') => store'
  | .validate key now =>
    match APIKeyService.validate_key store key now with
    | .error _ => store
    | .ok (_, store') => store'
  | .revoke key_id now => (APIKeyService.revoke_key store key_id now).2

/-- The store after a sequence of operations. -/
def runOps (store : Store) (ops : List Op) : Store :=
  ops.foldl applyOp store

/-- The uniqueness of `key_prefix` across the rows of the api_keys table
(unique constraint on the column, src/app/auth/models.py): two distinct
rows never share a prefix. -/
def PrefixUnique (store : Store) : Prop :=
  store.Pairwise (fun a b => a.key_prefix ≠ b.key_prefix)

instance : DecidablePred PrefixUnique := fun store =>
  List.instDecidablePairwise store

/-- The revocation invariant of the spec: a row is flagged inactive exactly
when it carries a revocation timestamp. -/
def RevokedIffInactive (store : Store) : Prop :=
  ∀ r ∈ store, (r.revoked_at ≠ none ↔ r.is_active = false)

/-- The `items` row (class `Item`, src/app/items/models.py with
`TimestampMixin` of src/app/db/base.py). -/
structure Item where
  id : String
  name : String
  description : Option String
  created_at : Time
  updated_at : Time
deriving DecidableEq

/-- `ItemUpdate` (src/app/items/schemas.py) after
`model_dump(exclude_unset=True)`: the outer option of each field records
whether the request set it at all.  `description` may be set to NULL;
`name` is non-nullable in the table and its validator rejects empty values,
so a set name carries a string. -/
structure ItemUpdate where
  name : Option String
  description : Option (Option String)
deriving DecidableEq

/-- `ItemService.get_by_id` (src/app/items/service.py). -/
def ItemService.get_by_id (store : List Item) (item_id : String) :
    Except DBError (Option Item) :=
  scalar_one_or_none (store.filter (fun r => r.id == item_id))

/-- Every row whose prefix is `p` is inactive, and such a row exists: the
state of a prefix after its key has been revoked. -/
def PrefixAllInactive (p : String) (store : Store) : Prop :=
  (∃ r ∈ store, r.key_prefix = p) ∧
  ∀ r ∈ store, r.key_prefix = p → r.is_active = false

/-- A sample api_keys row for concrete instances: the stored hash is the
bcrypt hash of the plaintext `String.append p "xyz"`, and when `p` has 12
characters that plaintext's first 12 characters are exactly the stored
prefix `p`. -/
def sampleKey (i p : String) : APIKey :=
  { id := i, name := String.append "key" i, client_id := "client",
    key_hash := { salt := 0, hashedPlaintext := String.append p "xyz" },
    key_prefix := p, is_active := true, expires_at := none, created_at := 0,
    last_used_at := none, revoked_at := none }

/-- A sample already-revoked row: inactive, with `revoked_at = some 1`. -/
def revokedSampleKey : APIKey :=
  { id := "k7", name := "key7", client_id := "client",
    key_hash := { salt := 0, hashedPlaintext := "sk_revokedxyzxyz" },
    key_prefix := "sk_revokedxy", is_active := false, expires_at := none,
    created_at := 0, last_used_at := none, revoked_at := some 1 }

/-- A concrete issuance request used by instances of the theorems below. -/
def witnessData : APIKeyCreate :=
  { name := "n", client_id := "c", expires_at := none }

/-- The issuance response `create_key` computes for `witnessData` on the
empty store with generated id "id1", random part "r" and salt 0 at time
0. -/
def witnessIssued : APIKeyCreated :=
  { id := "id1", name := "n", client_id := "c",
    key_prefix := APIKeyService.get_key_prefix (APIKeyService.generate_key "r"),
    key := APIKeyService.generate_key "r", expires_at := none,
    created_at := 0 }

/-- A sample items row for concrete instances. -/
def sampleItem : Item :=
  { id := "i1", name := "Widget", description := some "A thing",
    created_at := 0, updated_at := 0 }

/-- `ItemService.update` (src/app/items/service.py): load the row, apply
the allow-listed fields (`name`, `description`) that the payload set, and
flush; `updated_at` is refreshed by the `onupdate` hook of TimestampMixin
(src/app/db/base.py) whenever the flush issues an UPDATE, that is when the
payload set at least one field. -/
def ItemService.update (store : List Item) (item_id : String)
    (data : ItemUpdate) (now : Time) :
    Except DBError (Option Item × List Item) :=
  match ItemService.get_by_id store item_id with
  | .error e => .error e
  | .ok none => .ok (none, store)
  | .ok (some item) =>
    let item1 := match data.name with
      | none => item
      | some n => { item with name := n }
    let item2 := match data.description with
      | none => item1
      | some d => { item1 with description := d }
    let item3 := if data.name.isSome || data.description.isSome then
        { item2 with updated_at := now }
      else item2
    .ok (some item3,
      store.map (fun r => if r.id == item.id then item3 else r))

theorem scalar_of_length_le_one {α : Type} (l : List α) (h : l.length ≤ 1) :
    scalar_one_or_none l = .ok l.head? := by
  match l with
  | [] => rfl
  | [a] => rfl
  | a :: b :: t => simp at h

theorem eq_singleton_of_length_le_one {α : Type} (l : List α) (r : α)
    (hlen : l.length ≤ 1) (hr : r ∈ l) : l = [r] := by
  match l with
  | [] => exact absurd hr (List.not_mem_nil r)
  | [a] =>
    have : r = a := List.mem_singleton.mp hr
    rw [this]
  | a :: b :: t => simp at hlen

theorem prefixUnique_elim (store : Store) :
    PrefixUnique store →
    ∀ a ∈ store, ∀ b ∈ store, a.key_prefix = b.key_prefix → a = b := by
  induction store with
  | nil => intro _ a ha; exact absurd ha (List.not_mem_nil a)
  | cons c t ih =>
    intro h a ha b hb heq
    rcases List.pairwise_cons.mp h with ⟨hc, ht⟩
    rcases List.mem_cons.mp ha with rfl | ha'
    · rcases List.mem_cons.mp hb with rfl | hb'
      · rfl
      · exact absurd heq (hc b hb')
    · rcases List.mem_cons.mp hb with rfl | hb'
      · exact absurd heq.symm (hc a ha')
      · exact ih ht a ha' b hb' heq

theorem activeWithPrefix_length_le_one (store : Store) (p : String) :
    PrefixUnique store →
    (APIKeyService.activeWithPrefix store p).length ≤ 1 := by
  induction store with
  | nil => intro _; simp [APIKeyService.activeWithPrefix]
  | cons a l ih =>
    intro h
    rcases List.pairwise_cons.mp h with ⟨ha, hl⟩
    by_cases hp : (a.is_active && a.key_prefix == p) = true
    · have hnil : l.filter (fun r => r.is_active && r.key_prefix == p) = [] := by
        apply List.filter_eq_nil_iff.mpr
        intro b hb hbp
        have hbpre : b.key_prefix = p :=
          beq_iff_eq.mp ((Bool.and_eq_true _ _).mp hbp).2
        have hapre : a.key_prefix = p :=
          beq_iff_eq.mp ((Bool.and_eq_true _ _).mp hp).2
        exact ha b hb (hapre.trans hbpre.symm)
      simp [APIKeyService.activeWithPrefix, List.filter_cons, hp, hnil]
    · have heq : APIKeyService.activeWithPrefix (a :: l) p
          = APIKeyService.activeWithPrefix l p := by
        simp [APIKeyService.activeWithPrefix, List.filter_cons, hp]
      rw [heq]
      exact ih hl

theorem applyOp_create (store : Store) (data : APIKeyCreate)
    (genId randomPart : String) (salt : Nat) (now : Time) :
    applyOp store (Op.create data genId randomPart salt now) =
      match APIKeyService.create_key store data genId randomPart salt now with
      | .error _ => store
      | .ok (_, store') => store' := rfl

theorem applyOp_validate (store : Store) (key : String) (now : Time) :
    applyOp store (Op.validate key now) =
      match APIKeyService.validate_key store key now with
      | .error _ => store
      | .ok (_, store') => store' := rfl

theorem applyOp_revoke (store : Store) (key_id : String) (now : Time) :
    applyOp store (Op.revoke key_id now)
      = (APIKeyService.revoke_key store key_id now).2 := rfl

theorem revoke_key_fst_iff (store : Store) (key_id : String) (now : Time) :
    (APIKeyService.revoke_key store key_id now).1 = true ↔
      ∃ r ∈ store, r.id = key_id := by
  unfold APIKeyService.revoke_key
  simp [List.length_pos_iff_exists_mem, List.mem_filter]

theorem create_key_ok_elim (store : Store) (data : APIKeyCreate)
    (genId randomPart : String) (salt : Nat) (now : Time)
    (issued : APIKeyCreated) (store' : Store)
    (h : APIKeyService.create_key store data genId randomPart salt now
      = .ok (issued, store')) :
    store' = store ++ [newKeyRow data genId randomPart salt now] ∧
    issued = { id := genId, name := data.name, client_id := data.client_id,
               key_prefix := APIKeyService.get_key_prefix
                 (APIKeyService.generate_key randomPart),
               key := APIKeyService.generate_key randomPart,
               expires_at := data.expires_at, created_at := now } ∧
    ∀ r ∈ store, r.key_prefix
      ≠ APIKeyService.get_key_prefix (APIKeyService.generate_key randomPart) := by
  unfold APIKeyService.create_key at h
  split at h
  · exact absurd h (by simp)
  · case isFalse hg =>
    rw [Except.ok.injEq, Prod.mk.injEq] at h
    obtain ⟨h1, h2⟩ := h
    push_neg at hg
    refine ⟨h2.symm, h1.symm, ?_⟩
    intro r hr
    exact (hg r hr).2.2.1

theorem map_update_last_used {α : Type} (store : Store) (i : String)
    (now : Time) (f : APIKey → α)
    (hf : ∀ r t, f { r with last_used_at := t } = f r) :
    (store.map (fun r =>
      if r.id == i then { r with last_used_at := some now } else r)).map f
      = store.map f := by
  rw [List.map_map]
  apply List.map_congr_left
  intro a _
  simp only [Function.comp_apply]
  by_cases hid : a.id = i
  · rw [if_pos (beq_iff_eq.mpr hid)]
    exact hf a (some now)
  · rw [if_neg (fun hc => hid (beq_iff_eq.mp hc))]

theorem validate_key_preserves {α : Type} (store : Store) (key : String)
    (now : Time) (res : Option APIKey) (store2 : Store)
    (h : APIKeyService.validate_key store key now = .ok (res, store2))
    (f : APIKey → α) (hf : ∀ r t, f { r with last_used_at := t } = f r) :
    store2.map f = store.map f := by
  unfold APIKeyService.validate_key at h
  split at h
  · exact absurd h (by simp)
  · rw [Except.ok.injEq, Prod.mk.injEq] at h
    rw [← h.2]
  · split at h
    · rw [Except.ok.injEq, Prod.mk.injEq] at h
      rw [← h.2]
    · split at h
      · rw [Except.ok.injEq, Prod.mk.injEq] at h
        rw [← h.2]
      · rw [Except.ok.injEq, Prod.mk.injEq] at h
        rw [← h.2]
        exact map_update_last_used store _ now f hf

/-- C10: for every candidate key shorter than 12 characters,
`get_key_prefix` returns the candidate itself, so the active-row lookup of
`validate_key` is keyed by the full candidate string. -/
theorem C10_short_key_prefix_is_whole_key : ∀ (s : String), s.length < 12 →
    APIKeyService.get_key_prefix s = s ∧
    ∀ store : Store,
      APIKeyService.activeWithPrefix store (APIKeyService.get_key_prefix s)
        = APIKeyService.activeWithPrefix store s := by
  intro s hs
  have h1 : APIKeyService.get_key_prefix s = s := by
    unfold APIKeyService.get_key_prefix
    have h2 : s.data.take 12 = s.data := List.take_of_length_le (Nat.le_of_lt hs)
    rw [h2]
  exact ⟨h1, fun store => by rw [h1]⟩

/-- Witness for C10 at the 4-character candidate "sk_x". -/
theorem C10_witness :
    APIKeyService.get_key_prefix "sk_x" = "sk_x" ∧
    ∀ store : Store,
      APIKeyService.activeWithPrefix store (APIKeyService.get_key_prefix "sk_x")
        = APIKeyService.activeWithPrefix store "sk_x" :=
  C10_short_key_prefix_is_whole_key "sk_x" (by decide)

theorem activeWithPrefix_eq_singleton (store : Store) (r : APIKey) (p : String)
    (h : PrefixUnique store) (hr : r ∈ store) (hact : r.is_active = true)
    (hpre : r.key_prefix = p) :
    APIKeyService.activeWithPrefix store p = [r] := by
  apply eq_singleton_of_length_le_one _ r (activeWithPrefix_length_le_one store p h)
  apply List.mem_filter.mpr
  refine ⟨hr, ?_⟩
  rw [hact, hpre]
  simp

theorem validate_key_reject_of_nil (store : Store) (key : String) (now : Time)
    (hfil : APIKeyService.activeWithPrefix store (APIKeyService.get_key_prefix key)
      = []) :
    APIKeyService.validate_key store key now = .ok (none, store) := by
  unfold APIKeyService.validate_key
  rw [hfil]
  rfl

theorem validate_key_reject_mismatch (store : Store) (key : String) (now : Time)
    (r : APIKey)
    (hfil : APIKeyService.activeWithPrefix store (APIKeyService.get_key_prefix key)
      = [r])
    (hv : APIKeyService.verify_key key r.key_hash = false) :
    APIKeyService.validate_key store key now = .ok (none, store) := by
  unfold APIKeyService.validate_key
  rw [hfil]
  simp [scalar_one_or_none, hv]

theorem validate_key_reject_expired (store : Store) (key : String) (now : Time)
    (r : APIKey)
    (hfil : APIKeyService.activeWithPrefix store (APIKeyService.get_key_prefix key)
      = [r])
    (hv : APIKeyService.verify_key key r.key_hash = true)
    (he : r.is_expired now = true) :
    APIKeyService.validate_key store key now = .ok (none, store) := by
  unfold APIKeyService.validate_key
  rw [hfil]
  simp [scalar_one_or_none, hv, he]

theorem validate_key_of_singleton (store : Store) (key : String) (now : Time)
    (r : APIKey)
    (hfil : APIKeyService.activeWithPrefix store (APIKeyService.get_key_prefix key)
      = [r])
    (hv : APIKeyService.verify_key key r.key_hash = true)
    (he : r.is_expired now = false) :
    APIKeyService.validate_key store key now
      = .ok (some { r with last_used_at := some now },
          store.map (fun x =>
            if x.id == r.id then { x with last_used_at := some now } else x)) := by
  unfold APIKeyService.validate_key
  rw [hfil]
  simp [scalar_one_or_none, hv, he]

theorem validate_key_cases (store : Store) (key : String) (now : Time)
    (h : PrefixUnique store) :
    APIKeyService.validate_key store key now = .ok (none, store) ∨
    ∃ r : APIKey, APIKeyService.validate_key store key now
      = .ok (some { r with last_used_at := some now },
          store.map (fun x =>
            if x.id == r.id then { x with last_used_at := some now } else x)) := by
  have hlen := activeWithPrefix_length_le_one store
    (APIKeyService.get_key_prefix key) h
  rcases hfil : APIKeyService.activeWithPrefix store
      (APIKeyService.get_key_prefix key) with _ | ⟨a, t⟩
  · exact Or.inl (validate_key_reject_of_nil store key now hfil)
  · have ht : t = [] := by
      rw [hfil] at hlen
      rcases t with _ | ⟨b, t2⟩
      · rfl
      · simp at hlen
    rw [ht] at hfil
    rcases hv : APIKeyService.verify_key key a.key_hash with _ | _
    · exact Or.inl (validate_key_reject_mismatch store key now a hfil hv)
    · rcases he : a.is_expired now with _ | _
      · exact Or.inr ⟨a, validate_key_of_singleton store key now a hfil hv he⟩
      · exact Or.inl (validate_key_reject_expired store key now a hfil hv he)

/-- C1: issuing a key whose expiry is absent or strictly in the future and
immediately presenting the returned plaintext to `validate_key` succeeds
and returns the stored record with the id handed out at issuance. -/
theorem C1_issue_then_validate_same_id : ∀ (store : Store) (data : APIKeyCreate)
    (genId randomPart : String) (salt : Nat) (now : Time)
    (issued : APIKeyCreated) (store' : Store),
    APIKeyService.create_key store data genId randomPart salt now
      = .ok (issued, store') →
    (data.expires_at = none ∨ ∃ t, data.expires_at = some t ∧ now < t) →
    ∃ (rec : APIKey) (store2 : Store),
      APIKeyService.validate_key store' issued.key now = .ok (some rec, store2) ∧
      rec.id = issued.id := by
  intro store data genId randomPart salt now issued store' hc hexp
  obtain ⟨hs, hi, hfresh⟩ :=
    create_key_ok_elim store data genId randomPart salt now issued store' hc
  have hkey : issued.key = APIKeyService.generate_key randomPart := by rw [hi]
  have hid : issued.id = genId := by rw [hi]
  have h1 : store.filter (fun r => r.is_active && r.key_prefix
      == APIKeyService.get_key_prefix (APIKeyService.generate_key randomPart))
      = [] := by
    apply List.filter_eq_nil_iff.mpr
    intro b hb hbp
    exact hfresh b hb (beq_iff_eq.mp ((Bool.and_eq_true _ _).mp hbp).2)
  have hfil : APIKeyService.activeWithPrefix store'
      (APIKeyService.get_key_prefix issued.key)
      = [newKeyRow data genId randomPart salt now] := by
    rw [hkey, hs]
    unfold APIKeyService.activeWithPrefix
    rw [List.filter_append, h1]
    simp [newKeyRow]
  have hver : APIKeyService.verify_key issued.key
      (newKeyRow data genId randomPart salt now).key_hash = true := by
    rw [hkey]
    simp [APIKeyService.verify_key, newKeyRow, APIKeyService.hash_key]
  have hnexp : (newKeyRow data genId randomPart salt now).is_expired now
      = false := by
    show (match data.expires_at with
          | none => false
          | some t => decide (t < now)) = false
    rcases hexp with he | ⟨t, he, hlt⟩
    · rw [he]
    · rw [he]
      simp only [decide_eq_false_iff_not]
      exact Nat.lt_asymm hlt
  refine ⟨{ newKeyRow data genId randomPart salt now with last_used_at := some now },
    store'.map (fun x =>
      if x.id == (newKeyRow data genId randomPart salt now).id
      then { x with last_used_at := some now } else x), ?_, ?_⟩
  · exact validate_key_of_singleton store' issued.key now _ hfil hver hnexp
  · rw [hid]
    rfl

/-- Witness for C1: issuing on the empty store with random part "r" and no
expiry, then validating the returned plaintext at the same instant. -/
theorem C1_witness :
    ∃ (rec : APIKey) (store2 : Store),
      APIKeyService.validate_key [newKeyRow witnessData "id1" "r" 0 0]
        witnessIssued.key 0 = .ok (some rec, store2) ∧
      rec.id = witnessIssued.id :=
  C1_issue_then_validate_same_id [] witnessData "id1" "r" 0 0 _ _
    (by decide) (Or.inl rfl)

/-- C4: for an active stored record presented with its correct plaintext,
`validate_key` rejects exactly when `expires_at` is present and strictly
before the evaluation time; an absent `expires_at` never counts as expired
and an `expires_at` equal to the evaluation time does not either (the
comparison is strict). -/
theorem C4_expiry_strictly_past : ∀ (store : Store) (r : APIKey) (k : String)
    (now : Time),
    PrefixUnique store → r ∈ store → r.is_active = true →
    APIKeyService.verify_key k r.key_hash = true →
    APIKeyService.get_key_prefix k = r.key_prefix →
    ((APIKeyService.validate_key store k now = .ok (none, store)) ↔
      ∃ t, r.expires_at = some t ∧ t < now) ∧
    (r.is_expired now = true ↔ ∃ t, r.expires_at = some t ∧ t < now) := by
  intro store r k now hu hr hact hv hp
  have hfil : APIKeyService.activeWithPrefix store
      (APIKeyService.get_key_prefix k) = [r] :=
    activeWithPrefix_eq_singleton store r _ hu hr hact hp.symm
  have hexp : r.is_expired now = true ↔ ∃ t, r.expires_at = some t ∧ t < now := by
    unfold APIKey.is_expired
    rcases he : r.expires_at with _ | t
    · simp [he]
    · simp [he]
  refine ⟨?_, hexp⟩
  constructor
  · intro heq
    by_cases he2 : r.is_expired now = true
    · exact hexp.mp he2
    · have he3 : r.is_expired now = false := by
        rcases hb : r.is_expired now with _ | _
        · rfl
        · exact absurd hb he2
      have hsucc := validate_key_of_singleton store k now r hfil hv he3
      rw [hsucc] at heq
      rw [Except.ok.injEq, Prod.mk.injEq] at heq
      exact absurd heq.1 (by simp)
  · intro hex
    exact validate_key_reject_expired store k now r hfil hv (hexp.mpr hex)

/-- Witness for C4 at a never-expiring stored key presented with its
correct plaintext at time 5: both sides of both equivalences are false. -/
theorem C4_witness :
    ((APIKeyService.validate_key [sampleKey "1" "sk_aaaaaaaa1"]
        "sk_aaaaaaaa1xyz" 5 = .ok (none, [sampleKey "1" "sk_aaaaaaaa1"])) ↔
      ∃ t, (sampleKey "1" "sk_aaaaaaaa1").expires_at = some t ∧ t < 5) ∧
    ((sampleKey "1" "sk_aaaaaaaa1").is_expired 5 = true ↔
      ∃ t, (sampleKey "1" "sk_aaaaaaaa1").expires_at = some t ∧ t < 5) :=
  C4_expiry_strictly_past [sampleKey "1" "sk_aaaaaaaa1"]
    (sampleKey "1" "sk_aaaaaaaa1") "sk_aaaaaaaa1xyz" 5
    (by decide) (List.mem_singleton.mpr rfl) rfl (by decide) (by decide)

theorem get_api_key_some (k : String) (m : Nat) (store : Store) (now : Time) :
    get_api_key (some k) m store now =
      if k = "" then .httpError invalidAPIKeyError
      else if k.length < m then .httpError invalidAPIKeyError
      else match APIKeyService.validate_key store k now with
        | .error e => .dbError e
        | .ok (none, _) => .httpError invalidAPIKeyError
        | .ok (some record, _) => .ok record := rfl

theorem revoke_key_snd (store : Store) (key_id : String) (now : Time) :
    (APIKeyService.revoke_key store key_id now).2
      = store.map (fun r =>
          if r.id == key_id then
            { r with is_active := false, revoked_at := some now }
          else r) := rfl

theorem get_api_key_cases (a : Option String) (m : Nat) (store : Store)
    (now : Time) (h : PrefixUnique store) :
    get_api_key a m store now = .httpError invalidAPIKeyError ∨
    ∃ r : APIKey, get_api_key a m store now = .ok r := by
  rcases a with _ | k
  · exact Or.inl rfl
  · rw [get_api_key_some]
    by_cases h0 : k = ""
    · rw [if_pos h0]
      exact Or.inl rfl
    · rw [if_neg h0]
      by_cases h1 : k.length < m
      · rw [if_pos h1]
        exact Or.inl rfl
      · rw [if_neg h1]
        rcases validate_key_cases store k now h with hv | ⟨r, hv⟩
        · rw [hv]
          exact Or.inl rfl
        · rw [hv]
          exact Or.inr ⟨_, rfl⟩

/-- C3: under the store's prefix-uniqueness constraint, any two failing
authentication runs return the same outward value (the single 401
"Invalid API key" error): no failing step is observable in the result. -/
theorem C3_rejections_indistinguishable : ∀ (a1 a2 : Option String)
    (m1 m2 : Nat) (s1 s2 : Store) (t1 t2 : Time),
    PrefixUnique s1 → PrefixUnique s2 →
    (get_api_key a1 m1 s1 t1).isRejection = true →
    (get_api_key a2 m2 s2 t2).isRejection = true →
    get_api_key a1 m1 s1 t1 = get_api_key a2 m2 s2 t2 := by
  intro a1 a2 m1 m2 s1 s2 t1 t2 h1 h2 hr1 hr2
  rcases get_api_key_cases a1 m1 s1 t1 h1 with he1 | ⟨r1, he1⟩
  · rcases get_api_key_cases a2 m2 s2 t2 h2 with he2 | ⟨r2, he2⟩
    · rw [he1, he2]
    · rw [he2] at hr2
      exact absurd hr2 (by simp [AuthOutcome.isRejection])
  · rw [he1] at hr1
    exact absurd hr1 (by simp [AuthOutcome.isRejection])

/-- Witness for C3: a missing header and a too-short header produce the
same outward value. -/
theorem C3_witness :
    get_api_key none 32 [] 0 = get_api_key (some "tooshort") 32 [] 0 :=
  C3_rejections_indistinguishable none (some "tooshort") 32 32 [] [] 0 0
    (by decide) (by decide) (by decide) (by decide)

theorem prefixAllInactive_of_map_eq (p : String) (s s' : Store)
    (h : s'.map (fun r => (r.key_prefix, r.is_active))
      = s.map (fun r => (r.key_prefix, r.is_active))) :
    PrefixAllInactive p s → PrefixAllInactive p s' := by
  rintro ⟨⟨r0, hr0, hp0⟩, hall⟩
  constructor
  · have hmem : (r0.key_prefix, r0.is_active)
        ∈ s'.map (fun r => (r.key_prefix, r.is_active)) := by
      rw [h]
      exact List.mem_map_of_mem _ hr0
    rcases List.mem_map.mp hmem with ⟨r1, hr1, hpair⟩
    rw [Prod.mk.injEq] at hpair
    exact ⟨r1, hr1, hpair.1.trans hp0⟩
  · intro r1 hr1 hp1
    have hmem : (r1.key_prefix, r1.is_active)
        ∈ s.map (fun r => (r.key_prefix, r.is_active)) := by
      rw [← h]
      exact List.mem_map_of_mem _ hr1
    rcases List.mem_map.mp hmem with ⟨r2, hr2, hpair⟩
    rw [Prod.mk.injEq] at hpair
    rw [← hpair.2]
    exact hall r2 hr2 (hpair.1.trans hp1)

theorem prefixAllInactive_applyOp (p : String) (s : Store) (op : Op)
    (h : PrefixAllInactive p s) : PrefixAllInactive p (applyOp s op) := by
  rcases op with ⟨data, genId, randomPart, salt, now⟩ | ⟨key, now⟩ | ⟨key_id, now⟩
  · rw [applyOp_create]
    rcases hc : APIKeyService.create_key s data genId randomPart salt now
      with e | pr
    · exact h
    · obtain ⟨issued, store'⟩ := pr
      obtain ⟨hs, _, hfresh⟩ :=
        create_key_ok_elim s data genId randomPart salt now issued store' hc
      rw [hs]
      obtain ⟨⟨r0, hr0, hp0⟩, hall⟩ := h
      constructor
      · exact ⟨r0, List.mem_append_left _ hr0, hp0⟩
      · intro r1 hr1 hp1
        rcases List.mem_append.mp hr1 with hl | hrr
        · exact hall r1 hl hp1
        · exfalso
          have h1 : r1 = newKeyRow data genId randomPart salt now :=
            List.mem_singleton.mp hrr
          refine hfresh r0 hr0 ?_
          rw [hp0, ← hp1, h1]
          rfl
  · rw [applyOp_validate]
    rcases hv : APIKeyService.validate_key s key now with e | pr
    · exact h
    · obtain ⟨res, store2⟩ := pr
      refine prefixAllInactive_of_map_eq p s store2 ?_ h
      exact validate_key_preserves s key now res store2 hv
        (fun r => (r.key_prefix, r.is_active)) (fun r t => rfl)
  · rw [applyOp_revoke, revoke_key_snd]
    obtain ⟨⟨r0, hr0, hp0⟩, hall⟩ := h
    constructor
    · refine ⟨(if r0.id == key_id then
          { r0 with is_active := false, revoked_at := some now } else r0),
        List.mem_map_of_mem _ hr0, ?_⟩
      by_cases hid : r0.id = key_id
      · rw [if_pos (beq_iff_eq.mpr hid)]
        exact hp0
      · rw [if_neg (fun hc => hid (beq_iff_eq.mp hc))]
        exact hp0
    · intro r1 hr1 hp1
      rcases List.mem_map.mp hr1 with ⟨r2, hr2, hr2e⟩
      have hr2e' : (if r2.id == key_id then
          { r2 with is_active := false, revoked_at := some now } else r2)
          = r1 := hr2e
      by_cases hid : r2.id = key_id
      · rw [if_pos (beq_iff_eq.mpr hid)] at hr2e'
        rw [← hr2e']
      · rw [if_neg (fun hc => hid (beq_iff_eq.mp hc))] at hr2e'
        subst hr2e'
        exact hall r2 hr2 hp1

theorem prefixAllInactive_runOps (p : String) (ops : List Op) :
    ∀ s : Store, PrefixAllInactive p s → PrefixAllInactive p (runOps s ops) := by
  induction ops with
  | nil => intro s h; exact h
  | cons op t ih => intro s h; exact ih _ (prefixAllInactive_applyOp p s op h)

theorem activeWithPrefix_nil_of_allInactive (store : Store) (p : String)
    (h : PrefixAllInactive p store) :
    APIKeyService.activeWithPrefix store p = [] := by
  apply List.filter_eq_nil_iff.mpr
  intro b hb hbp
  obtain ⟨hact, hpre⟩ := (Bool.and_eq_true _ _).mp hbp
  have hb2 := h.2 b hb (beq_iff_eq.mp hpre)
  rw [hb2] at hact
  exact Bool.noConfusion hact

theorem prefixAllInactive_after_revoke (store : Store) (r : APIKey)
    (now : Time) (hu : PrefixUnique store) (hr : r ∈ store) :
    PrefixAllInactive r.key_prefix (APIKeyService.revoke_key store r.id now).2 := by
  rw [revoke_key_snd]
  constructor
  · refine ⟨{ r with is_active := false, revoked_at := some now },
      List.mem_map.mpr ⟨r, hr, ?_⟩, rfl⟩
    show (if r.id == r.id then
        { r with is_active := false, revoked_at := some now } else r)
      = { r with is_active := false, revoked_at := some now }
    rw [if_pos (beq_iff_eq.mpr rfl)]
  · intro r1 hr1 hp1
    rcases List.mem_map.mp hr1 with ⟨r2, hr2, hr2e⟩
    have hr2e' : (if r2.id == r.id then
        { r2 with is_active := false, revoked_at := some now } else r2)
        = r1 := hr2e
    by_cases hid : r2.id = r.id
    · rw [if_pos (beq_iff_eq.mpr hid)] at hr2e'
      rw [← hr2e']
    · rw [if_neg (fun hc => hid (beq_iff_eq.mp hc))] at hr2e'
      subst hr2e'
      exact absurd
        (congrArg APIKey.id (prefixUnique_elim store hu r2 hr2 r hr hp1)) hid

/-- C2: after a successful revocation of a record, presenting that
record's correct plaintext to `validate_key` is rejected, immediately and
after any further sequence of core operations. -/
theorem C2_revoke_then_validate_rejected : ∀ (store : Store) (r : APIKey)
    (now1 : Time) (ops : List Op) (k : String) (now2 : Time),
    PrefixUnique store → r ∈ store →
    APIKeyService.verify_key k r.key_hash = true →
    APIKeyService.get_key_prefix k = r.key_prefix →
    (APIKeyService.revoke_key store r.id now1).1 = true ∧
    APIKeyService.validate_key
      (runOps (APIKeyService.revoke_key store r.id now1).2 ops) k now2
      = .ok (none, runOps (APIKeyService.revoke_key store r.id now1).2 ops) := by
  intro store r now1 ops k now2 hu hr hv hp
  constructor
  · exact (revoke_key_fst_iff store r.id now1).mpr ⟨r, hr, rfl⟩
  · have h1 := prefixAllInactive_after_revoke store r now1 hu hr
    have h2 := prefixAllInactive_runOps r.key_prefix ops _ h1
    apply validate_key_reject_of_nil
    rw [hp]
    exact activeWithPrefix_nil_of_allInactive _ _ h2

/-- Witness for C2: revoking the only stored key reports success and an
immediate re-validation of its plaintext is rejected. -/
theorem C2_witness :
    (APIKeyService.revoke_key [sampleKey "1" "sk_aaaaaaaa1"]
      (sampleKey "1" "sk_aaaaaaaa1").id 1).1 = true ∧
    APIKeyService.validate_key
      (runOps (APIKeyService.revoke_key [sampleKey "1" "sk_aaaaaaaa1"]
        (sampleKey "1" "sk_aaaaaaaa1").id 1).2 []) "sk_aaaaaaaa1xyz" 2
      = .ok (none,
        runOps (APIKeyService.revoke_key [sampleKey "1" "sk_aaaaaaaa1"]
          (sampleKey "1" "sk_aaaaaaaa1").id 1).2 []) :=
  C2_revoke_then_validate_rejected [sampleKey "1" "sk_aaaaaaaa1"]
    (sampleKey "1" "sk_aaaaaaaa1") 1 [] "sk_aaaaaaaa1xyz" 2
    (by decide) (List.mem_singleton.mpr rfl) (by decide) (by decide)

/-- C5 counterexample: with two stored rows whose 12-character prefixes
both match the 4-character search string "sk_a" (pattern "sk_a%"),
`get_key_by_prefix` does not return a record or `none`: the underlying
`scalar_one_or_none` fails with `MultipleResultsFound`, because the query
matches by `startswith` while only full prefixes are unique. -/
theorem C5_counterexample :
    ¬ ("sk_a".length < APIKeyService.MIN_PREFIX_LENGTH) ∧
    APIKeyService.get_key_by_prefix
      [sampleKey "1" "sk_aaaaaaaa1", sampleKey "2" "sk_aaaaaaaa2"] "sk_a"
      = .error .multipleResultsFound := by
  constructor
  · decide
  · decide

/-- C5 amended: `get_key_by_prefix` returns `none` for a prefix shorter
than 4 characters regardless of stored records; otherwise the query
selects the rows whose `key_prefix` matches the unescaped SQL pattern
`p || '%'` (where `%` and `_` inside `p` act as wildcards), and the call
returns the unique matching row, `none` when no row matches, and fails
with the store's multiple-results error when two or more rows match. -/
theorem C5_amended_prefix_lookup : ∀ (store : Store) (p : String),
    (p.length < APIKeyService.MIN_PREFIX_LENGTH →
      APIKeyService.get_key_by_prefix store p = .ok none) ∧
    (¬ p.length < APIKeyService.MIN_PREFIX_LENGTH →
      (store.filter (fun r => likeStartswith p r.key_prefix)).length ≤ 1 →
      APIKeyService.get_key_by_prefix store p
        = .ok (store.filter (fun r => likeStartswith p r.key_prefix)).head?) ∧
    (¬ p.length < APIKeyService.MIN_PREFIX_LENGTH →
      2 ≤ (store.filter (fun r => likeStartswith p r.key_prefix)).length →
      APIKeyService.get_key_by_prefix store p
        = .error .multipleResultsFound) := by
  intro store p
  refine ⟨?_, ?_, ?_⟩
  · intro h
    unfold APIKeyService.get_key_by_prefix
    rw [if_pos h]
  · intro h hlen
    unfold APIKeyService.get_key_by_prefix
    rw [if_neg h]
    exact scalar_of_length_le_one _ hlen
  · intro h hlen
    unfold APIKeyService.get_key_by_prefix
    rw [if_neg h]
    rcases hfil : store.filter (fun r => likeStartswith p r.key_prefix)
      with _ | ⟨a, t⟩
    · rw [hfil] at hlen; simp at hlen
    · rcases t with _ | ⟨b, t2⟩
      · rw [hfil] at hlen; simp at hlen
      · rw [hfil]; rfl

/-- Witness for the amended C5, exercising the wildcard semantics: the
search string "sk_a_b" contains the `_` wildcard, so (via the pattern
"sk_a_b%") it matches both stored prefixes "sk_aXbcdefgh" and
"sk_aYbcdefgh" although neither literally starts with it, and the lookup
fails with the multiple-results error. -/
theorem C5_amended_witness :
    APIKeyService.get_key_by_prefix
      [sampleKey "1" "sk_aXbcdefgh", sampleKey "2" "sk_aYbcdefgh"] "sk_a_b"
      = .error .multipleResultsFound :=
  (C5_amended_prefix_lookup
    [sampleKey "1" "sk_aXbcdefgh", sampleKey "2" "sk_aYbcdefgh"] "sk_a_b").2.2
    (by decide) (by decide)

/-- C6: `revoke_key` reports success exactly when a row with the given id
exists, regardless of its active state; in particular revoking the same
existing id twice reports success both times. -/
theorem C6_revoke_true_iff_id_exists : ∀ (store : Store) (key_id : String)
    (now1 now2 : Time),
    ((APIKeyService.revoke_key store key_id now1).1 = true ↔
      ∃ r ∈ store, r.id = key_id) ∧
    ((∃ r ∈ store, r.id = key_id) →
      (APIKeyService.revoke_key
        (APIKeyService.revoke_key store key_id now1).2 key_id now2).1 = true) := by
  intro store key_id now1 now2
  refine ⟨revoke_key_fst_iff store key_id now1, ?_⟩
  rintro ⟨r, hr, hid⟩
  apply (revoke_key_fst_iff _ key_id now2).mpr
  refine ⟨(if r.id == key_id then
      { r with is_active := false, revoked_at := some now1 } else r), ?_, ?_⟩
  · exact List.mem_map_of_mem _ hr
  · by_cases h : r.id = key_id
    · rw [if_pos (beq_iff_eq.mpr h)]
      exact hid
    · rw [if_neg (fun hc => h (beq_iff_eq.mp hc))]
      exact hid

/-- Witness for C6: re-revoking the only stored key still returns true. -/
theorem C6_witness :
    (APIKeyService.revoke_key
      (APIKeyService.revoke_key [sampleKey "1" "sk_aaaaaaaa1"] "1" 5).2
      "1" 7).1 = true :=
  (C6_revoke_true_iff_id_exists [sampleKey "1" "sk_aaaaaaaa1"] "1" 5 7).2
    ⟨sampleKey "1" "sk_aaaaaaaa1", List.mem_singleton.mpr rfl, rfl⟩

/-- C7 counterexample: a row already carrying `revoked_at = some 1` has its
`revoked_at` overwritten to `some 2` by a second `revoke_key` call at time
2, because the UPDATE targets the row by id with no guard on its current
state; so `revoked_at` is not write-once. -/
theorem C7_counterexample :
    revokedSampleKey.revoked_at = some 1 ∧
    (APIKeyService.revoke_key [revokedSampleKey] "k7" 2).2.map
      (fun r => r.revoked_at) = [some 2] := by
  constructor
  · rfl
  · decide

/-- C7 amended: `create_key` leaves every pre-existing row untouched,
`validate_key` never changes any row's `revoked_at`, and `revoke_key` sets
the `revoked_at` of every row whose id matches to the revocation time
(overwriting any earlier value, which is what the counterexample forces)
while leaving all other rows' `revoked_at` unchanged. -/
theorem C7_amended_revoked_at_evolution : ∀ (store : Store)
    (key key_id : String) (data : APIKeyCreate) (genId randomPart : String)
    (salt : Nat) (now : Time),
    (applyOp store (Op.create data genId randomPart salt now)).take store.length
      = store ∧
    (applyOp store (Op.validate key now)).map (fun r => r.revoked_at)
      = store.map (fun r => r.revoked_at) ∧
    (applyOp store (Op.revoke key_id now)).map (fun r => r.revoked_at)
      = store.map (fun r => if r.id == key_id then some now else r.revoked_at) := by
  intro store key key_id data genId randomPart salt now
  refine ⟨?_, ?_, ?_⟩
  · rw [applyOp_create]
    rcases hc : APIKeyService.create_key store data genId randomPart salt now
      with e | pr
    · exact List.take_length store
    · obtain ⟨issued, store'⟩ := pr
      obtain ⟨hs, _, _⟩ :=
        create_key_ok_elim store data genId randomPart salt now issued store' hc
      rw [hs]
      exact List.take_left store _
  · rw [applyOp_validate]
    rcases hv : APIKeyService.validate_key store key now with e | pr
    · rfl
    · obtain ⟨res, store2⟩ := pr
      exact validate_key_preserves store key now res store2 hv
        (fun r => r.revoked_at) (fun r t => rfl)
  · rw [applyOp_revoke]
    unfold APIKeyService.revoke_key
    rw [List.map_map]
    apply List.map_congr_left
    intro a _
    simp only [Function.comp_apply]
    by_cases hid : a.id = key_id
    · rw [if_pos (beq_iff_eq.mpr hid), if_pos (beq_iff_eq.mpr hid)]
    · rw [if_neg (fun hc => hid (beq_iff_eq.mp hc)),
        if_neg (fun hc => hid (beq_iff_eq.mp hc))]

theorem revokedIff_of_map_eq (s s' : Store)
    (h : s'.map (fun r => (r.revoked_at, r.is_active))
      = s.map (fun r => (r.revoked_at, r.is_active))) :
    RevokedIffInactive s → RevokedIffInactive s' := by
  intro hs r1 hr1
  have hmem : (r1.revoked_at, r1.is_active)
      ∈ s.map (fun r => (r.revoked_at, r.is_active)) := by
    rw [← h]
    exact List.mem_map_of_mem _ hr1
  rcases List.mem_map.mp hmem with ⟨r2, hr2, hpair⟩
  rw [Prod.mk.injEq] at hpair
  rw [← hpair.1, ← hpair.2]
  exact hs r2 hr2

/-- C8: every core operation preserves the invariant that a row carries a
revocation timestamp exactly when it is inactive, and consequently every
store reachable from the empty store by a sequence of core operations
satisfies it. -/
theorem C8_revoked_iff_inactive :
    (∀ (store : Store) (op : Op),
      RevokedIffInactive store → RevokedIffInactive (applyOp store op)) ∧
    ∀ ops : List Op, RevokedIffInactive (runOps [] ops) := by
  have hstep : ∀ (store : Store) (op : Op),
      RevokedIffInactive store → RevokedIffInactive (applyOp store op) := by
    intro store op h
    rcases op with ⟨data, genId, randomPart, salt, now⟩ | ⟨key, now⟩ | ⟨key_id, now⟩
    · rw [applyOp_create]
      rcases hc : APIKeyService.create_key store data genId randomPart salt now
        with e | pr
      · exact h
      · obtain ⟨issued, store'⟩ := pr
        obtain ⟨hs, _, _⟩ :=
          create_key_ok_elim store data genId randomPart salt now issued store' hc
        rw [hs]
        intro r1 hr1
        rcases List.mem_append.mp hr1 with hl | hrr
        · exact h r1 hl
        · have h1 : r1 = newKeyRow data genId randomPart salt now :=
            List.mem_singleton.mp hrr
          rw [h1]
          simp [newKeyRow]
    · rw [applyOp_validate]
      rcases hv : APIKeyService.validate_key store key now with e | pr
      · exact h
      · obtain ⟨res, store2⟩ := pr
        refine revokedIff_of_map_eq store store2 ?_ h
        exact validate_key_preserves store key now res store2 hv
          (fun r => (r.revoked_at, r.is_active)) (fun r t => rfl)
    · rw [applyOp_revoke, revoke_key_snd]
      intro r1 hr1
      rcases List.mem_map.mp hr1 with ⟨r2, hr2, hr2e⟩
      have hr2e' : (if r2.id == key_id then
          { r2 with is_active := false, revoked_at := some now } else r2)
          = r1 := hr2e
      by_cases hid : r2.id = key_id
      · rw [if_pos (beq_iff_eq.mpr hid)] at hr2e'
        rw [← hr2e']
        simp
      · rw [if_neg (fun hc => hid (beq_iff_eq.mp hc))] at hr2e'
        subst hr2e'
        exact h r2 hr2
  refine ⟨hstep, ?_⟩
  have hrun : ∀ (ops : List Op) (s : Store),
      RevokedIffInactive s → RevokedIffInactive (runOps s ops) := by
    intro ops
    induction ops with
    | nil => intro s h; exact h
    | cons op t ih => intro s h; exact ih _ (hstep s op h)
  intro ops
  refine hrun ops [] ?_
  intro r hrm
  exact absurd hrm (List.not_mem_nil r)

/-- Witness for C8: revoking on the empty store preserves the invariant. -/
theorem C8_witness : RevokedIffInactive (applyOp [] (Op.revoke "k" 0)) :=
  C8_revoked_iff_inactive.1 [] (Op.revoke "k" 0)
    (fun r hrm => absurd hrm (List.not_mem_nil r))

/-- C9: for an existing item, `ItemService.update` only ever changes the
allow-listed fields `name` and `description` that the payload sets, plus
the automatic `updated_at` refresh; `id` and `created_at` are unchanged,
and a payload not setting `description` (for example one setting only
`name`) leaves `description` unchanged. -/
theorem C9_update_frame : ∀ (store : List Item) (item_id : String)
    (data : ItemUpdate) (now : Time) (item : Item),
    ItemService.get_by_id store item_id = .ok (some item) →
    ∃ item' : Item,
      ItemService.update store item_id data now
        = .ok (some item',
            store.map (fun r => if r.id == item.id then item' else r)) ∧
      item'.id = item.id ∧
      item'.created_at = item.created_at ∧
      (data.name = none → item'.name = item.name) ∧
      (data.description = none → item'.description = item.description) ∧
      (item'.updated_at = item.updated_at ∨ item'.updated_at = now) := by
  intro store item_id data now item hget
  rcases hn : data.name with _ | n <;> rcases hd : data.description with _ | d
  all_goals unfold ItemService.update
  all_goals rw [hget, hn, hd]
  · exact ⟨item, rfl, rfl, rfl, fun _ => rfl, fun _ => rfl, Or.inl rfl⟩
  · exact ⟨{ item with description := d, updated_at := now }, rfl, rfl, rfl,
      fun _ => rfl,
      fun hc => by simp [hd] at hc, Or.inr rfl⟩
  · exact ⟨{ item with name := n, updated_at := now }, rfl, rfl, rfl,
      fun hc => by simp [hn] at hc,
      fun _ => rfl, Or.inr rfl⟩
  · exact ⟨{ item with name := n, description := d, updated_at := now },
      rfl, rfl, rfl,
      fun hc => by simp [hn] at hc,
      fun hc => by simp [hd] at hc, Or.inr rfl⟩

/-- Witness for C9: updating only the name of the one stored item. -/
theorem C9_witness :
    ∃ item' : Item,
      ItemService.update [sampleItem] "i1"
        { name := some "Widget2", description := none } 9
        = .ok (some item',
            [sampleItem].map (fun r => if r.id == sampleItem.id then item' else r)) ∧
      item'.id = sampleItem.id ∧
      item'.created_at = sampleItem.created_at ∧
      (({ name := some "Widget2", description := none } : ItemUpdate).name = none →
        item'.name = sampleItem.name) ∧
      (({ name := some "Widget2", description := none } : ItemUpdate).description
          = none → item'.description = sampleItem.description) ∧
      (item'.updated_at = sampleItem.updated_at ∨ item'.updated_at = 9) :=
  C9_update_frame [sampleItem] "i1"
    { name := some "Widget2", description := none } 9 sampleItem (by decide)

end ApiKeyApp
